import Mathlib

/-!
Verification of the cidrfinder allocation registry.

The definitions below are a shallow embedding of the Go sources:
`cidr.go` (the `CIDRService` used by the local HTTP server, with the
uniqueness check) and `main.go` (the Lambda entry point, which carries its
own copy of the service code without the uniqueness check).  The DynamoDB
table is modelled as a `List CIDRRecord`; a `Scan` returns its elements,
`PutItem` replaces the item with the same key, `DeleteItem` removes it.
Store/transport failures (`StoreUnavailable`) are outside the model.
-/

set_option maxRecDepth 32768

namespace CIDRFinder

/-- A stored record: `CIDRRecord{Key, CIDR string}` from `cidr.go` / `main.go`. -/
structure CIDRRecord where
  key : String
  cidr : String
deriving DecidableEq, Repr

/-- Go's `<` on strings: lexicographic comparison, element by element (at the
character level; UTF-8 byte order and code-point order agree). -/
def ltChars : List Char → List Char → Bool
  | [], [] => false
  | [], _ :: _ => true
  | _ :: _, [] => false
  | a :: as, b :: bs =>
    if a.toNat < b.toNat then true
    else if b.toNat < a.toNat then false
    else ltChars as bs

/-- Go's `records[i].Key < records[j].Key` comparator. -/
def ltKey (a b : String) : Bool :=
  ltChars a.data b.data

/-- One insertion step of sorting by `Key` ascending, as performed by
`sort.Slice(records, func(i, j) { return records[i].Key < records[j].Key })`
in `GetAllCIDRs` (`cidr.go`). -/
def insertRec (r : CIDRRecord) : List CIDRRecord → List CIDRRecord
  | [] => [r]
  | x :: xs => if ltKey r.key x.key then r :: x :: xs else x :: insertRec r xs

/-- Sorting by `Key` ascending (insertion sort as a deterministic model of
`sort.Slice` with the `Key <` comparator). -/
def sortByKey : List CIDRRecord → List CIDRRecord
  | [] => []
  | r :: rs => insertRec r (sortByKey rs)

/-- `GetAllCIDRs` from `cidr.go`: scans the whole table, then sorts the
records by `Key` ascending. -/
def getAllCIDRs (store : List CIDRRecord) : List CIDRRecord :=
  sortByKey store

/-- The i-th pool candidate `fmt.Sprintf("10.%d.0.0/16", i)` from
`GetNextAvailableCIDR`. -/
def candidate (i : Nat) : String :=
  "10." ++ toString i ++ ".0.0/16"

/-- The used-CIDR set built by `GetNextAvailableCIDR`: the `CIDR` strings of
the records whose text starts with `"10."` (`strings.HasPrefix(record.CIDR, "10.")`,
modelled on the character lists so it is kernel-computable).
The Go map is modelled as a list queried with `contains`. -/
def usedCIDRs (records : List CIDRRecord) : List String :=
  (records.filter (fun r => "10.".data.isPrefixOf r.cidr.data)).map (fun r => r.cidr)

/-- `GetNextAvailableCIDR` from `cidr.go` / `main.go` (identical in both):
reads all records, builds the used set, then returns the first candidate
`10.i.0.0/16` for `i = 0..255` not in the used set, or the exhaustion error. -/
def getNextAvailableCIDR (store : List CIDRRecord) : Except String String :=
  match (List.range 256).find?
      (fun i => !((usedCIDRs (getAllCIDRs store)).contains (candidate i))) with
  | some i => .ok (candidate i)
  | none => .error "no available 10.x.0.0/16 CIDRs remaining"

/-- DynamoDB `PutItem`: unconditionally writes the item, replacing any item
with the same primary key `key`. -/
def putItem (store : List CIDRRecord) (r : CIDRRecord) : List CIDRRecord :=
  store.filter (fun x => x.key != r.key) ++ [r]

/-- `DeleteCIDR` from `cidr.go` / `main.go`: an unconditional DynamoDB
`DeleteItem` by key; absence of the key is not an error. -/
def deleteCIDR (store : List CIDRRecord) (key : String) : Except String (List CIDRRecord) :=
  .ok (store.filter (fun r => r.key != key))

/-!  Embedding of Go's `net.ParseCIDR` (the `validateCIDR` check).
Strings are handled at character granularity via `String.data`. -/

/-- Go `net` package `dtoi`: parse a leading decimal number, returning the
value, the count of characters consumed, and an ok flag; overflow at
`big = 0xFFFFFF` fails. -/
def dtoiAux : List Char → Nat → Nat → Nat × Nat × Bool
  | [], n, i => if i = 0 then (0, 0, false) else (n, i, true)
  | ch :: rest, n, i =>
    if '0' ≤ ch ∧ ch ≤ '9' then
      let n' := n * 10 + (ch.toNat - '0'.toNat)
      if n' ≥ 0xFFFFFF then (0xFFFFFF, i, false)
      else dtoiAux rest n' (i + 1)
    else if i = 0 then (0, 0, false) else (n, i, true)

/-- Entry point of `dtoi`. -/
def dtoi (s : List Char) : Nat × Nat × Bool :=
  dtoiAux s 0 0

/-- One dotted-quad field of Go `parseIPv4`: a decimal number `≤ 0xFF`, with
leading zeros rejected (`c > 1 && s[0] == '0'`). Returns the octet and the
rest of the input. -/
def parseIPv4Field (s : List Char) : Option (Nat × List Char) :=
  match dtoi s with
  | (n, c, ok) =>
    if !ok then none
    else if n > 0xFF then none
    else if c > 1 ∧ s.headD ' ' = '0' then none
    else some (n, s.drop c)

/-- Consume one expected character. -/
def expectChar (c : Char) : List Char → Option (List Char)
  | [] => none
  | x :: xs => if x = c then some xs else none

/-- Go `parseIPv4`: four decimal fields separated by dots, consuming the
whole input; yields the four octets. -/
def parseIPv4Go (s : List Char) : Option (List Nat) := do
  let (a, s) ← parseIPv4Field s
  let s ← expectChar '.' s
  let (b, s) ← parseIPv4Field s
  let s ← expectChar '.' s
  let (c, s) ← parseIPv4Field s
  let s ← expectChar '.' s
  let (d, s) ← parseIPv4Field s
  if s.isEmpty then some [a, b, c, d] else none

/-- Hexadecimal digit value, as classified by Go `xtoi`. -/
def hexVal (c : Char) : Option Nat :=
  if '0' ≤ c ∧ c ≤ '9' then some (c.toNat - '0'.toNat)
  else if 'a' ≤ c ∧ c ≤ 'f' then some (c.toNat - 'a'.toNat + 10)
  else if 'A' ≤ c ∧ c ≤ 'F' then some (c.toNat - 'A'.toNat + 10)
  else none

/-- Go `xtoi`: parse a leading hexadecimal number with the same
`big = 0xFFFFFF` overflow cutoff. -/
def xtoiAux : List Char → Nat → Nat → Nat × Nat × Bool
  | [], n, i => if i = 0 then (0, 0, false) else (n, i, true)
  | ch :: rest, n, i =>
    match hexVal ch with
    | some d =>
      let n' := n * 16 + d
      if n' ≥ 0xFFFFFF then (0, i, false)
      else xtoiAux rest n' (i + 1)
    | none => if i = 0 then (0, 0, false) else (n, i, true)

/-- Entry point of `xtoi`. -/
def xtoi (s : List Char) : Nat × Nat × Bool :=
  xtoiAux s 0 0

/-- Store a 16-bit group at positions `i`, `i+1` of the ipv6 byte list
(`ip[i] = byte(n >> 8); ip[i+1] = byte(n)`). -/
def setPair (ip : List Nat) (i n : Nat) : List Nat :=
  (ip.set i (n / 256)).set (i + 1) (n % 256)

/-- The ellipsis expansion after Go `parseIPv6`'s main loop: shift the `i - e`
bytes written after position `e` to the end and zero-fill the gap. -/
def v6expand (ip : List Nat) (e i : Nat) : List Nat :=
  let n := 16 - i
  (List.range 16).map (fun k =>
    if k < e then ip.getD k 0
    else if k < e + n then 0
    else ip.getD (k - n) 0)

/-- The code after Go `parseIPv6`'s main loop: leftover input fails; fewer
than 16 bytes requires an ellipsis (then expands); 16 bytes with an ellipsis
fails. -/
def v6finish (s : List Char) (i : Nat) (ell : Option Nat) (ip : List Nat) :
    Option (List Nat) :=
  if !s.isEmpty then none
  else if i < 16 then
    match ell with
    | none => none
    | some e => some (v6expand ip e i)
  else
    match ell with
    | some _ => none
    | none => some ip

/-- The main loop of Go `parseIPv6`, fuel-recursive (each iteration consumes
at least one character, so `length + 1` fuel never runs out): a 16-bit hex
group, an optional trailing IPv4 dotted quad, `:` separators, and at most one
`::` ellipsis. -/
def v6loop : Nat → List Char → Nat → Option Nat → List Nat → Option (List Nat)
  | 0, _, _, _, _ => none
  | fuel + 1, s, i, ell, ip =>
    if i ≥ 16 then v6finish s i ell ip
    else
      match xtoi s with
      | (n, c, ok) =>
        if !ok then none
        else if n > 0xFFFF then none
        else if c < s.length ∧ s.getD c ' ' = '.' then
          if ell.isNone ∧ i ≠ 12 then none
          else if i + 4 > 16 then none
          else
            match parseIPv4Go s with
            | some [a, b, c4, d] =>
              v6finish [] (i + 4) ell
                ((((ip.set i a).set (i + 1) b).set (i + 2) c4).set (i + 3) d)
            | _ => none
        else
          let ip' := setPair ip i n
          let i' := i + 2
          match s.drop c with
          | [] => v6finish [] i' ell ip'
          | ':' :: s2 =>
            if s2.isEmpty then none
            else
              match s2 with
              | ':' :: s3 =>
                if ell.isSome then none
                else if s3.isEmpty then v6finish [] i' (some i') ip'
                else v6loop fuel s3 i' (some i') ip'
              | _ => v6loop fuel s2 i' ell ip'
          | _ => none

/-- Go `parseIPv6`: handles a leading `::`, then runs the main loop. -/
def parseIPv6Go (s : List Char) : Option (List Nat) :=
  match s with
  | ':' :: ':' :: rest =>
    if rest.isEmpty then some (List.replicate 16 0)
    else v6loop (rest.length + 1) rest 0 (some 0) (List.replicate 16 0)
  | _ => v6loop (s.length + 1) s 0 none (List.replicate 16 0)

/-- Index of the last occurrence of a character, for Go `splitHostZone`. -/
def lastIdxAux : List Char → Char → Nat → Option Nat → Option Nat
  | [], _, _, acc => acc
  | x :: xs, c, i, acc => lastIdxAux xs c (i + 1) (if x = c then some i else acc)

/-- Go `parseIPv6Zone` via `splitHostZone`: a `%` at a positive index splits
off a zone suffix (discarded here); otherwise the whole string is parsed. -/
def parseIPv6ZoneGo (s : List Char) : Option (List Nat) :=
  match lastIdxAux s '%' 0 none with
  | some i => if i > 0 then parseIPv6Go (s.take i) else parseIPv6Go s
  | none => parseIPv6Go s

/-- Split at the first `/`, as `ParseCIDR` does with `IndexByte(s, '/')`. -/
def splitSlashAux : List Char → List Char → Option (List Char × List Char)
  | [], _ => none
  | '/' :: rest, acc => some (acc.reverse, rest)
  | c :: rest, acc => splitSlashAux rest (c :: acc)

/-- Go `net.ParseCIDR` reduced to its acceptance condition: the input must
contain a `/`; the address part must parse as IPv4 (then the limit is 32) or
else as IPv6 (limit 128); the mask part must be a full decimal number within
the limit. -/
def parseCIDRGo (s : String) : Bool :=
  match splitSlashAux s.data [] with
  | none => false
  | some (addr, mask) =>
    let iplen : Nat := if (parseIPv4Go addr).isSome then 4 else 16
    let ipOk : Bool :=
      if (parseIPv4Go addr).isSome then true else (parseIPv6ZoneGo addr).isSome
    match dtoi mask with
    | (n, i, ok) =>
      ipOk && ok && decide (i = mask.length) && decide (n ≤ 8 * iplen)

/-- `validateCIDR` from `cidr.go` / `main.go`: valid iff `net.ParseCIDR`
succeeds. -/
def validateCIDR (cidr : String) : Bool :=
  parseCIDRGo cidr

/-- The distinct error outcomes of `RegisterCIDR` (`cidr.go`), excluding
store failures: the spec's `InvalidBlock`, `DuplicateName`, `DuplicateBlock`. -/
inductive RegError where
  | invalidCIDR : RegError
  | keyExists : String → RegError
  | cidrExists : String → RegError
deriving DecidableEq, Repr

/-- The loop of `validateUniqueness` (`cidr.go`): the first record with a
matching `Key` yields the duplicate-key error, else a matching `CIDR` yields
the duplicate-CIDR error. -/
def findDuplicate (key cidr : String) : List CIDRRecord → Option RegError
  | [] => none
  | r :: rest =>
    if r.key = key then some (.keyExists key)
    else if r.cidr = cidr then some (.cidrExists cidr)
    else findDuplicate key cidr rest

/-- `validateUniqueness` from `cidr.go`: re-reads all records (via
`GetAllCIDRs`) and scans them for a duplicate key or CIDR. -/
def validateUniqueness (store : List CIDRRecord) (key cidr : String) :
    Option RegError :=
  findDuplicate key cidr (getAllCIDRs store)

/-- `RegisterCIDR` from `cidr.go`: validate the CIDR text, then check
uniqueness, then persist with an unconditional `PutItem`.  An error return
happens before the write, so the store is unchanged. -/
def registerCIDR (store : List CIDRRecord) (key cidr : String) :
    Except RegError (List CIDRRecord) :=
  if validateCIDR cidr then
    match validateUniqueness store key cidr with
    | some e => .error e
    | none => .ok (putItem store ⟨key, cidr⟩)
  else .error .invalidCIDR

/-- `RegisterCIDR` from `main.go` (the Lambda copy of the service): validate
the CIDR text, then persist with an unconditional `PutItem`; it performs no
uniqueness check at all. -/
def mainRegisterCIDR (store : List CIDRRecord) (key cidr : String) :
    Except RegError (List CIDRRecord) :=
  if validateCIDR cidr then .ok (putItem store ⟨key, cidr⟩)
  else .error .invalidCIDR

/-- Outcome of two interleaved `RegisterCIDR` (`cidr.go`) calls. -/
structure RaceResult where
  ok1 : Bool
  ok2 : Bool
  final : List CIDRRecord
deriving DecidableEq, Repr

/-- The check-then-act interleaving of two concurrent `RegisterCIDR`
(`cidr.go`) calls that the code admits: both `validateUniqueness` scans read
the same pre-write snapshot, then both unconditional `PutItem` writes are
issued (there is no `ConditionExpression` on the `PutItemInput`). -/
def raceRegister (store : List CIDRRecord) (k1 c1 k2 c2 : String) : RaceResult :=
  let pass1 := validateCIDR c1 && (validateUniqueness store k1 c1).isNone
  let pass2 := validateCIDR c2 && (validateUniqueness store k2 c2).isNone
  let st1 := if pass1 then putItem store ⟨k1, c1⟩ else store
  let st2 := if pass2 then putItem st1 ⟨k2, c2⟩ else st1
  ⟨pass1, pass2, st2⟩

/-- Modelled from the spec: the Record Store's conditional-write primitive
`putIfNameAbsent(name, blockText) -> success | AlreadyExists`, which the spec
requires the persist step of register to invoke.  No such call exists in the
repository: both `RegisterCIDR` variants issue a `PutItem` with no condition. -/
def putIfNameAbsent (store : List CIDRRecord) (r : CIDRRecord) :
    Option (List CIDRRecord) :=
  if store.any (fun x => x.key == r.key) then none else some (store ++ [r])

/-! Helper lemmas. -/

/-- Decidable equality of `Except` results, for evaluating the operations on
concrete inputs. -/
def exceptDecEq {ε α : Type} [DecidableEq ε] [DecidableEq α] :
    (a b : Except ε α) → Decidable (a = b)
  | .error e1, .error e2 =>
    if h : e1 = e2 then .isTrue (by rw [h])
    else .isFalse (by intro hc; cases hc; exact h rfl)
  | .error _, .ok _ => .isFalse (by intro hc; cases hc)
  | .ok _, .error _ => .isFalse (by intro hc; cases hc)
  | .ok a1, .ok a2 =>
    if h : a1 = a2 then .isTrue (by rw [h])
    else .isFalse (by intro hc; cases hc; exact h rfl)

instance {ε α : Type} [DecidableEq ε] [DecidableEq α] :
    DecidableEq (Except ε α) :=
  exceptDecEq

/-- Inserting a record yields a permutation of consing it. -/
theorem insertRec_perm (r : CIDRRecord) (l : List CIDRRecord) :
    (insertRec r l).Perm (r :: l) := by
  induction l with
  | nil => simp [insertRec]
  | cons x xs ih =>
    by_cases h : ltKey r.key x.key = true
    · simp [insertRec, h]
    · simp only [insertRec, if_neg h]
      exact (ih.cons x).trans (List.Perm.swap r x xs)

/-- `sortByKey` permutes its input. -/
theorem sortByKey_perm (l : List CIDRRecord) : (sortByKey l).Perm l := by
  induction l with
  | nil => simp [sortByKey]
  | cons r rs ih => exact (insertRec_perm r (sortByKey rs)).trans (ih.cons r)

/-- `GetAllCIDRs` returns exactly the stored records, reordered. -/
theorem getAllCIDRs_perm (store : List CIDRRecord) :
    (getAllCIDRs store).Perm store :=
  sortByKey_perm store

/-- Membership after insertion. -/
theorem mem_insertRec {y r : CIDRRecord} {l : List CIDRRecord} :
    y ∈ insertRec r l ↔ y = r ∨ y ∈ l := by
  rw [(insertRec_perm r l).mem_iff]
  simp

/-- The comparator decides the lexicographic order on character lists. -/
theorem ltChars_iff : ∀ (as bs : List Char), ltChars as bs = true ↔ as < bs := by
  intro as
  induction as with
  | nil =>
    intro bs
    cases bs with
    | nil =>
      constructor
      · intro h
        simp [ltChars] at h
      · intro h
        cases h
    | cons b bs =>
      simp only [ltChars]
      exact iff_of_true trivial List.Lex.nil
  | cons a as ih =>
    intro bs
    cases bs with
    | nil =>
      constructor
      · intro h
        simp [ltChars] at h
      · intro h
        cases h
    | cons b bs =>
      by_cases h1 : a.toNat < b.toNat
      · simp only [ltChars, if_pos h1]
        exact iff_of_true trivial (List.Lex.rel h1)
      · by_cases h2 : b.toNat < a.toNat
        · simp only [ltChars, if_neg h1, if_pos h2]
          constructor
          · intro h
            cases h
          · intro hlex
            cases hlex with
            | rel hr => exact absurd hr h1
            | cons ht => exact absurd h2 (lt_irrefl _)
        · have htn : a.toNat = b.toNat := by omega
          have hab : a = b :=
            Char.eq_of_val_eq (UInt32.eq_of_toBitVec_eq
              (BitVec.eq_of_toNat_eq htn))
          subst hab
          simp only [ltChars, if_neg h1, if_neg h2]
          rw [ih bs]
          exact List.Lex.cons_iff.symm

/-- `ltKey` decides Go's string `<` on the underlying characters. -/
theorem ltKey_iff {a b : String} : ltKey a b = true ↔ a.data < b.data :=
  ltChars_iff a.data b.data

/-- A failed comparison gives the reverse non-strict order. -/
theorem ltKey_le {a b : String} (h : ltKey b a = false) : a ≤ b := by
  have hn : ¬ (b.data < a.data) := by
    intro hc
    rw [← ltKey_iff] at hc
    rw [h] at hc
    cases hc
  exact String.le_iff_toList_le.mpr (not_lt.mp hn)

/-- A successful comparison gives the non-strict order. -/
theorem ltKey_lt_le {a b : String} (h : ltKey a b = true) : a ≤ b :=
  String.le_iff_toList_le.mpr (le_of_lt (ltKey_iff.mp h))

/-- Insertion preserves sortedness by key. -/
theorem insertRec_pairwise {r : CIDRRecord} {l : List CIDRRecord}
    (h : List.Pairwise (fun a b : CIDRRecord => a.key ≤ b.key) l) :
    List.Pairwise (fun a b : CIDRRecord => a.key ≤ b.key) (insertRec r l) := by
  induction l with
  | nil => simp [insertRec]
  | cons x xs ih =>
    rcases List.pairwise_cons.mp h with ⟨hx, hxs⟩
    by_cases hlt : ltKey r.key x.key = true
    · simp only [insertRec, if_pos hlt]
      refine List.pairwise_cons.mpr ⟨?_, h⟩
      intro y hy
      rcases List.mem_cons.mp hy with rfl | hy'
      · exact ltKey_lt_le hlt
      · exact le_trans (ltKey_lt_le hlt) (hx y hy')
    · simp only [insertRec, if_neg hlt]
      refine List.pairwise_cons.mpr ⟨?_, ih hxs⟩
      intro y hy
      rcases mem_insertRec.mp hy with rfl | hy'
      · exact ltKey_le (Bool.eq_false_iff.mpr hlt)
      · exact hx y hy'

/-- The sorted scan result is sorted by key ascending. -/
theorem sortByKey_pairwise (l : List CIDRRecord) :
    List.Pairwise (fun a b : CIDRRecord => a.key ≤ b.key) (sortByKey l) := by
  induction l with
  | nil => simp [sortByKey]
  | cons r rs ih => exact insertRec_pairwise ih

/-- `find?` only depends on the predicate's values on the list. -/
theorem find_congr {α : Type} {p q : α → Bool} :
    ∀ {l : List α}, (∀ a ∈ l, p a = q a) → l.find? p = l.find? q := by
  intro l
  induction l with
  | nil => intro _; rfl
  | cons a as ih =>
    intro h
    have ha := h a (List.mem_cons_self a as)
    cases hq : q a with
    | true =>
      rw [List.find?_cons_of_pos as (by rw [ha, hq]),
        List.find?_cons_of_pos as hq]
    | false =>
      rw [List.find?_cons_of_neg as (by rw [ha, hq]; simp),
        List.find?_cons_of_neg as (by rw [hq]; simp)]
      exact ih (fun b hb => h b (List.mem_cons_of_mem a hb))

/-- First-fit over `range'`: `find?` returns the least index satisfying the
predicate. -/
theorem find_range'_first (p : Nat → Bool) :
    ∀ (len s i : Nat), s ≤ i → i < s + len →
      (∀ j, s ≤ j → j < i → p j = false) → p i = true →
      (List.range' s len).find? p = some i := by
  intro len
  induction len with
  | zero => intro s i h1 h2 _ _; omega
  | succ n ih =>
    intro s i h1 h2 hlt hp
    rw [List.range'_succ]
    by_cases hs : i = s
    · subst hs
      exact List.find?_cons_of_pos _ hp
    · have hsi : s < i := lt_of_le_of_ne h1 (Ne.symm hs)
      have hps : p s = false := hlt s le_rfl hsi
      rw [List.find?_cons_of_neg _ (by rw [hps]; simp)]
      exact ih (s + 1) i hsi (by omega) (fun j hj1 hj2 => hlt j (by omega) hj2) hp

/-- First-fit over `range`. -/
theorem find_range_first (p : Nat → Bool) (n i : Nat) (hi : i < n)
    (hlt : ∀ j, j < i → p j = false) (hp : p i = true) :
    (List.range n).find? p = some i := by
  rw [List.range_eq_range']
  exact find_range'_first p n 0 i (Nat.zero_le i) (by omega)
    (fun j _ hj => hlt j hj) hp

/-- Membership in the used-CIDR set. -/
theorem mem_usedCIDRs {l : List CIDRRecord} {s : String} :
    s ∈ usedCIDRs l ↔
      ("10.".data.isPrefixOf s.data = true ∧ s ∈ l.map CIDRRecord.cidr) := by
  simp only [usedCIDRs, List.mem_map, List.mem_filter]
  constructor
  · rintro ⟨r, ⟨hr, hpre⟩, rfl⟩
    exact ⟨hpre, ⟨r, hr, rfl⟩⟩
  · rintro ⟨hpre, r, hr, rfl⟩
    exact ⟨r, ⟨hr, hpre⟩, rfl⟩

/-- `contains` agrees with membership for strings. -/
theorem contains_iff {l : List String} {s : String} :
    l.contains s = true ↔ s ∈ l := by
  simp [List.contains, List.elem_iff]

set_option maxRecDepth 4096 in
/-- Every pool candidate starts with the literal `"10."`. -/
theorem candidate_prefixFact :
    ∀ i, i < 256 → ("10.".data.isPrefixOf (candidate i).data) = true := by decide

/-- The scan's used-set test at a candidate is exactly membership of the
candidate among the stored CIDR strings. -/
theorem used_contains_candidate (store : List CIDRRecord) (i : Nat)
    (hi : i < 256) :
    ((usedCIDRs (getAllCIDRs store)).contains (candidate i) = true) ↔
      candidate i ∈ store.map CIDRRecord.cidr := by
  rw [contains_iff, mem_usedCIDRs]
  have hperm := (getAllCIDRs_perm store).map CIDRRecord.cidr
  simp [candidate_prefixFact i hi, hperm.mem_iff]

/-! Claim theorems. -/

/-- C1: `GetNextAvailableCIDR` enumerates the 256 pool candidates
`10.i.0.0/16` for `i = 0..255` in ascending order and returns the first one
not in the used set built from the current records; on an empty registry it
returns `10.0.0.0/16`, and with exactly `10.0.0.0/16` and `10.1.0.0/16` used
it returns `10.2.0.0/16`. -/
theorem nextAvailable_first_candidate :
    (∀ (store : List CIDRRecord) (i : Nat), i < 256 →
        (∀ j, j < i → candidate j ∈ usedCIDRs (getAllCIDRs store)) →
        candidate i ∉ usedCIDRs (getAllCIDRs store) →
        getNextAvailableCIDR store = .ok (candidate i)) ∧
    getNextAvailableCIDR [] = .ok "10.0.0.0/16" ∧
    getNextAvailableCIDR [⟨"a", "10.0.0.0/16"⟩, ⟨"b", "10.1.0.0/16"⟩] =
      .ok "10.2.0.0/16" := by
  refine ⟨?_, rfl, by decide⟩
  intro store i hi hall hnot
  have hfind : (List.range 256).find?
      (fun j => !((usedCIDRs (getAllCIDRs store)).contains (candidate j))) =
        some i := by
    apply find_range_first _ _ _ hi
    · intro j hj
      have hc : (usedCIDRs (getAllCIDRs store)).contains (candidate j) = true :=
        contains_iff.mpr (hall j hj)
      rw [hc]
      rfl
    · have hc : (usedCIDRs (getAllCIDRs store)).contains (candidate i) = false := by
        cases hc : (usedCIDRs (getAllCIDRs store)).contains (candidate i) with
        | false => rfl
        | true => exact absurd (contains_iff.mp hc) hnot
      rw [hc]
      rfl
  simp only [getNextAvailableCIDR, hfind]

/-- C1 witness: with only `10.0.0.0/16` used, the scan returns `10.1.0.0/16`. -/
theorem nextAvailable_first_candidate_witness :
    getNextAvailableCIDR [⟨"x", "10.0.0.0/16"⟩] = .ok (candidate 1) :=
  nextAvailable_first_candidate.1 [⟨"x", "10.0.0.0/16"⟩] 1 (by decide)
    (by decide) (by decide)

/-- C6: when all 256 pool candidates appear among the stored CIDR strings,
`GetNextAvailableCIDR` fails with the pool-exhausted error rather than
returning a block. -/
theorem nextAvailable_pool_exhausted :
    ∀ store : List CIDRRecord,
      (∀ i, i < 256 → candidate i ∈ store.map CIDRRecord.cidr) →
      getNextAvailableCIDR store =
        .error "no available 10.x.0.0/16 CIDRs remaining" := by
  intro store hall
  have hfind : (List.range 256).find?
      (fun j => !((usedCIDRs (getAllCIDRs store)).contains (candidate j))) =
        none := by
    rw [List.find?_eq_none]
    intro x hx hpx
    have hx' : x < 256 := List.mem_range.mp hx
    have hc : (usedCIDRs (getAllCIDRs store)).contains (candidate x) = true :=
      (used_contains_candidate store x hx').mpr (hall x hx')
    simp only [hc, Bool.not_true] at hpx
    cases hpx
  simp only [getNextAvailableCIDR, hfind]

/-- C6 witness: a registry holding exactly the 256 candidates is exhausted. -/
theorem nextAvailable_pool_exhausted_witness :
    getNextAvailableCIDR
        ((List.range 256).map (fun i => ⟨toString i, candidate i⟩)) =
      .error "no available 10.x.0.0/16 CIDRs remaining" :=
  nextAvailable_pool_exhausted _ (by
    intro i hi
    simp only [List.map_map, List.mem_map, Function.comp]
    exact ⟨i, List.mem_range.mpr hi, rfl⟩)

/-- C9: records whose CIDR string is not literally a pool candidate
`10.i.0.0/16` (decimal `i` in `0..255`) have no effect on the result of
`GetNextAvailableCIDR`: adding (equivalently, removing) such a record
anywhere in the record set leaves the result unchanged. -/
theorem nextAvailable_ignores_non_pool :
    ∀ (l1 l2 : List CIDRRecord) (r : CIDRRecord),
      (∀ i, i < 256 → r.cidr ≠ candidate i) →
      getNextAvailableCIDR (l1 ++ r :: l2) = getNextAvailableCIDR (l1 ++ l2) := by
  intro l1 l2 r hr
  have hpred : ∀ x ∈ List.range 256,
      (fun j => !((usedCIDRs (getAllCIDRs (l1 ++ r :: l2))).contains (candidate j))) x =
      (fun j => !((usedCIDRs (getAllCIDRs (l1 ++ l2))).contains (candidate j))) x := by
    intro x hx
    have hx' : x < 256 := List.mem_range.mp hx
    have h1 := used_contains_candidate (l1 ++ r :: l2) x hx'
    have h2 := used_contains_candidate (l1 ++ l2) x hx'
    have hne : ¬ (candidate x = r.cidr) := fun h => hr x hx' h.symm
    have hmem : (candidate x ∈ (l1 ++ r :: l2).map CIDRRecord.cidr) ↔
        (candidate x ∈ (l1 ++ l2).map CIDRRecord.cidr) := by
      simp only [List.map_append, List.map_cons, List.mem_append,
        List.mem_cons]
      tauto
    cases hc1 : (usedCIDRs (getAllCIDRs (l1 ++ r :: l2))).contains (candidate x) <;>
      cases hc2 : (usedCIDRs (getAllCIDRs (l1 ++ l2))).contains (candidate x) <;>
        simp_all
  simp only [getNextAvailableCIDR]
  rw [find_congr hpred]

/-- C9 witness: a record whose CIDR is `10.0.0.1/16` (inside `10.` space but
not a candidate string) does not change the scan's result. -/
theorem nextAvailable_ignores_non_pool_witness :
    getNextAvailableCIDR [⟨"a", "10.0.0.0/16"⟩, ⟨"g", "10.0.0.1/16"⟩] =
      getNextAvailableCIDR [⟨"a", "10.0.0.0/16"⟩] :=
  nextAvailable_ignores_non_pool [⟨"a", "10.0.0.0/16"⟩] []
    ⟨"g", "10.0.0.1/16"⟩ (by decide)

/-- C10: whenever `GetNextAvailableCIDR` succeeds, the returned string is
`10.i.0.0/16` for some `i ≤ 255` and differs from the CIDR string of every
stored record. -/
theorem nextAvailable_ok_is_fresh_candidate :
    ∀ (store : List CIDRRecord) (s : String),
      getNextAvailableCIDR store = .ok s →
      ∃ i, i ≤ 255 ∧ s = candidate i ∧ ∀ r ∈ store, r.cidr ≠ s := by
  intro store s h
  rcases hfind : (List.range 256).find?
      (fun j => !((usedCIDRs (getAllCIDRs store)).contains (candidate j))) with
    _ | i
  · rw [getNextAvailableCIDR, hfind] at h
    exact absurd h (by simp)
  · rw [getNextAvailableCIDR, hfind] at h
    have hs : s = candidate i := by
      cases h
      rfl
    have hi : i < 256 := List.mem_range.mp (List.mem_of_find?_eq_some hfind)
    have hp := List.find?_some hfind
    have hcontains : (usedCIDRs (getAllCIDRs store)).contains (candidate i) = false := by
      cases hc : (usedCIDRs (getAllCIDRs store)).contains (candidate i) with
      | false => rfl
      | true => rw [hc] at hp; exact absurd hp (by simp)
    have hnotmem : candidate i ∉ store.map CIDRRecord.cidr := by
      intro hm
      have := (used_contains_candidate store i hi).mpr hm
      rw [this] at hcontains
      cases hcontains
    refine ⟨i, by omega, hs, ?_⟩
    intro r hrmem heq
    exact hnotmem (List.mem_map.mpr ⟨r, hrmem, by rw [heq, hs]⟩)

/-- C10 witness: the empty registry's result `10.0.0.0/16` is a candidate and
collides with no stored record. -/
theorem nextAvailable_ok_is_fresh_candidate_witness :
    ∃ i, i ≤ 255 ∧ "10.0.0.0/16" = candidate i ∧
      ∀ r ∈ ([] : List CIDRRecord), r.cidr ≠ "10.0.0.0/16" :=
  nextAvailable_ok_is_fresh_candidate [] "10.0.0.0/16" rfl

/-- C5: a block text rejected by `validateCIDR` (Go `net.ParseCIDR`) makes
`RegisterCIDR` fail with the invalid-CIDR error for every store and key —
before any uniqueness check or write, so the record set is unchanged; in
particular `"not-a-cidr"` and `"10.0.0.0/33"` are rejected. -/
theorem register_invalid_block_short_circuit :
    (∀ (store : List CIDRRecord) (key cidr : String),
        validateCIDR cidr = false →
        registerCIDR store key cidr = .error .invalidCIDR) ∧
    validateCIDR "not-a-cidr" = false ∧
    validateCIDR "10.0.0.0/33" = false := by
  refine ⟨?_, rfl, rfl⟩
  intro store key cidr h
  simp [registerCIDR, h]

/-- C5 witness: registering `"not-a-cidr"` fails with the invalid-CIDR error
even when the key already exists in the store. -/
theorem register_invalid_block_short_circuit_witness :
    registerCIDR [⟨"x", "10.0.0.0/16"⟩] "x" "not-a-cidr" =
      .error .invalidCIDR :=
  register_invalid_block_short_circuit.1 [⟨"x", "10.0.0.0/16"⟩] "x"
    "not-a-cidr" rfl

/-- C7: `GetAllCIDRs` returns every stored record — a permutation of the
store, hence no filtering and no pagination — sorted by name (`Key`)
ascending. -/
theorem getAllCIDRs_complete_sorted :
    ∀ store : List CIDRRecord,
      (getAllCIDRs store).Perm store ∧
      List.Pairwise (fun a b : CIDRRecord => a.key ≤ b.key) (getAllCIDRs store) :=
  fun store => ⟨getAllCIDRs_perm store, sortByKey_pairwise store⟩

/-- C8: `DeleteCIDR` succeeds whether or not the key exists, a subsequent
list never includes the deleted name, and repeating the delete succeeds and
is a no-op. -/
theorem deleteCIDR_idempotent :
    ∀ (store : List CIDRRecord) (key : String),
      ∃ store2, deleteCIDR store key = .ok store2 ∧
        (∀ r ∈ getAllCIDRs store2, r.key ≠ key) ∧
        deleteCIDR store2 key = .ok store2 := by
  intro store key
  refine ⟨store.filter (fun r => r.key != key), rfl, ?_, ?_⟩
  · intro r hr
    have hr' : r ∈ store.filter (fun r => r.key != key) :=
      (getAllCIDRs_perm _).mem_iff.mp hr
    have hmem := List.mem_filter.mp hr'
    simpa using hmem.2
  · simp [deleteCIDR, List.filter_filter]

/-- C8 witness: deleting `"a"`, then listing, then deleting again, on a
one-record store. -/
theorem deleteCIDR_idempotent_witness :
    ∃ store2, deleteCIDR [⟨"a", "10.0.0.0/16"⟩] "a" = .ok store2 ∧
      (∀ r ∈ getAllCIDRs store2, r.key ≠ "a") ∧
      deleteCIDR store2 "a" = .ok store2 :=
  deleteCIDR_idempotent [⟨"a", "10.0.0.0/16"⟩] "a"

/-- C2: the two `RegisterCIDR` variants diverge on a duplicate name.  The
`cidr.go` service rejects it with the duplicate-key error and writes nothing,
as the claim states; the Lambda copy in `main.go` performs no uniqueness
check, reports success, and its unconditional `PutItem` silently overwrites
the existing record. -/
theorem register_duplicate_name_divergence :
    registerCIDR [⟨"a", "10.0.0.0/16"⟩] "a" "10.1.0.0/16" =
      .error (.keyExists "a") ∧
    mainRegisterCIDR [⟨"a", "10.0.0.0/16"⟩] "a" "10.1.0.0/16" =
      .ok [⟨"a", "10.1.0.0/16"⟩] :=
  ⟨rfl, rfl⟩

/-- C3: the two `RegisterCIDR` variants diverge on a duplicate block.  The
`cidr.go` service rejects the exact block text under a different name with
the duplicate-CIDR error; the Lambda copy in `main.go` performs no uniqueness
check, reports success, and stores a second record with the same block. -/
theorem register_duplicate_block_divergence :
    registerCIDR [⟨"a", "10.0.0.0/16"⟩] "b" "10.0.0.0/16" =
      .error (.cidrExists "10.0.0.0/16") ∧
    mainRegisterCIDR [⟨"a", "10.0.0.0/16"⟩] "b" "10.0.0.0/16" =
      .ok [⟨"a", "10.0.0.0/16"⟩, ⟨"b", "10.0.0.0/16"⟩] :=
  ⟨rfl, rfl⟩

/-- C4: the persist step of `RegisterCIDR` is an unconditional `PutItem`
(no put-if-absent condition), so in the check-then-act interleaving of two
concurrent registrations of the name `"x"` both calls succeed — whereas the
conditional-write primitive the spec requires would refuse the second. -/
theorem register_persist_unconditional_divergence :
    (raceRegister [] "x" "10.0.0.0/16" "x" "10.1.0.0/16").ok1 = true ∧
    (raceRegister [] "x" "10.0.0.0/16" "x" "10.1.0.0/16").ok2 = true ∧
    putIfNameAbsent [⟨"x", "10.0.0.0/16"⟩] ⟨"x", "10.1.0.0/16"⟩ = none :=
  ⟨rfl, rfl, rfl⟩

end CIDRFinder
